import Mathlib

/-!
Verification of the output parsers of `cpu/schbench.py`
(`parse_schbench_data` and `parse_perf_data`).

The Python dictionaries are modelled as insertion-ordered association
lists over a JSON-like value type `Val`; Python floats are modelled as
exact rationals (every float literal reaching a comparison in this
development is produced by the same decimal-to-rational conversion on
both sides, so exactness is faithful for the stated properties);
`re.match` prefix matching is translated regex-by-regex into
deterministic character-list scanners, with the backtracking behaviour
of the one ambiguous pattern (`parse_perf_data`'s counter regex)
resolved explicitly in comments.  The possible `ValueError` of Python's
`float()` is modelled by an `Option` result.
-/

namespace Schbench

/-- JSON-like values: the shapes stored in the Python result dicts. -/
inductive Val where
  | vstr : String → Val
  | vnum : ℚ → Val
  | vlist : List Val → Val
  | vdict : List (String × Val) → Val

/-- A Python dict with string keys, as an insertion-ordered association list. -/
abbrev Dict := List (String × Val)

/-- Python dict lookup `d[k]` / `d.get(k)`: the binding of the first
matching key (keys are unique in an insertion-ordered dict). -/
def dget (d : Dict) (k : String) : Option Val :=
  match d with
  | [] => none
  | (k', v') :: rest => if k' = k then some v' else dget rest k

/-- Python dict assignment `d[k] = v`: overwrite in place if the key is
present (keeping its position), otherwise append at the end. -/
def dset (d : Dict) (k : String) (v : Val) : Dict :=
  match d with
  | [] => [(k, v)]
  | (k', v') :: rest => if k' = k then (k, v) :: rest else (k', v') :: dset rest k v

/-- Python's `\s` on the ASCII range: space, tab, newline, carriage
return, vertical tab, form feed. -/
def pySpace (c : Char) : Bool :=
  c = ' ' || c = '\t' || c = '\n' || c = '\r' || c = '\x0b' || c = '\x0c'

/-- The character class `[\d,.]` of the perf-counter regex. -/
def isNumChar (c : Char) : Bool :=
  c.isDigit || c = ',' || c = '.'

/-- Python's substring test `pat in hay` on character lists. -/
def containsSub (pat : List Char) : List Char → Bool
  | [] => pat.isEmpty
  | c :: cs => pat.isPrefixOf (c :: cs) || containsSub pat cs

/-- Python's substring test `pat in hay` on strings. -/
def containsSubS (pat s : String) : Bool :=
  containsSub pat.data s.data

/-- Truthiness of `line.strip()`: the line has at least one
non-whitespace character. -/
def hasNonSpace (s : String) : Bool :=
  s.data.any (fun c => !pySpace c)

/-- Python's `s.strip()` on character lists. -/
def pyStrip (cs : List Char) : List Char :=
  ((cs.dropWhile pySpace).reverse.dropWhile pySpace).reverse

/-- Match a literal piece of a regex: if `lit` is a prefix of `cs`,
return the remainder, else fail. -/
def dropLiteral : List Char → List Char → Option (List Char)
  | [], cs => some cs
  | _ :: _, [] => none
  | l :: ls, c :: cs => if c = l then dropLiteral ls cs else none

/-- Numeric value of a digit string (the value Python's `float`/`int`
would give its integer part). -/
def digitsToNat (ds : List Char) : Nat :=
  ds.foldl (fun acc c => acc * 10 + (c.toNat - 48)) 0

/-- Exact rational value of the decimal `intPart.fracPart`, the model of
Python's `float()` on such a literal. -/
def decimalToRat (intPart fracPart : List Char) : ℚ :=
  (digitsToNat intPart : ℚ) + (digitsToNat fracPart : ℚ) / (10 : ℚ) ^ fracPart.length

/-- The part of the percentile regex after `\s*(\*?)\s*`, namely
`(\d+\.\d+)th: (\d+)\s+\((\d+) samples\)` as used by `re.match` (prefix
match, trailing text allowed).  Every adjacent pair of pieces has
disjoint character classes, so greedy maximal munch is exact. -/
def percTail (t : List Char) : Option (String × String × String) :=
  let d1 := t.takeWhile Char.isDigit
  let t1 := t.dropWhile Char.isDigit
  if d1.isEmpty then none else
  match t1 with
  | '.' :: t2 =>
    let d2 := t2.takeWhile Char.isDigit
    let t3 := t2.dropWhile Char.isDigit
    if d2.isEmpty then none else
    match dropLiteral ("th: ").data t3 with
    | none => none
    | some t4 =>
      let lat := t4.takeWhile Char.isDigit
      let t5 := t4.dropWhile Char.isDigit
      if lat.isEmpty then none else
      let sp := t5.takeWhile pySpace
      let t6 := t5.dropWhile pySpace
      if sp.isEmpty then none else
      match t6 with
      | '(' :: t7 =>
        let samp := t7.takeWhile Char.isDigit
        let t8 := t7.dropWhile Char.isDigit
        if samp.isEmpty then none else
        match dropLiteral (" samples)").data t8 with
        | none => none
        | some _ => some (String.mk (d1 ++ '.' :: d2), String.mk lat, String.mk samp)
      | _ => none
  | _ => none

/-- `re.match(r'\s*(\*?)\s*(\d+\.\d+)th: (\d+)\s+\((\d+) samples\)', line)`
returning groups 2, 3, 4.  After the greedy `\s*`, an optional `*` is
consumed; the second `\s*` only consumes anything in the starred case
(otherwise the scanner already sits on a non-space character). -/
def percParse (cs : List Char) : Option (String × String × String) :=
  match cs.dropWhile pySpace with
  | [] => percTail []
  | c :: r => if c = '*' then percTail (r.dropWhile pySpace) else percTail (c :: r)

/-- `re.match(r'\s*min=(\d+), max=(\d+)', line)` returning both groups. -/
def minMaxParse (cs : List Char) : Option (String × String) :=
  match dropLiteral ("min=").data (cs.dropWhile pySpace) with
  | none => none
  | some t1 =>
    let mn := t1.takeWhile Char.isDigit
    let t2 := t1.dropWhile Char.isDigit
    if mn.isEmpty then none else
    match dropLiteral (", max=").data t2 with
    | none => none
    | some t3 =>
      let mx := t3.takeWhile Char.isDigit
      if mx.isEmpty then none else
      some (String.mk mn, String.mk mx)

/-- `re.match(r'average rps: (\d+\.\d+)', line)`: the literal is anchored
at the very first character; the captured decimal is converted by
`float()`, modelled as an exact rational. -/
def avgParse (cs : List Char) : Option ℚ :=
  match dropLiteral ("average rps: ").data cs with
  | none => none
  | some t =>
    let d1 := t.takeWhile Char.isDigit
    let t1 := t.dropWhile Char.isDigit
    if d1.isEmpty then none else
    match t1 with
    | '.' :: t2 =>
      let d2 := t2.takeWhile Char.isDigit
      if d2.isEmpty then none else some (decimalToRat d1 d2)
    | _ => none

/-- The key of the first category whose header name occurs in the line,
tried in the insertion order of `category_mapping` (the Python loop
breaks at the first match). -/
def findCategory (line : String) : Option String :=
  if containsSubS "Wakeup Latencies percentiles" line then some "wakeup_latencies_percentiles"
  else if containsSubS "Request Latencies percentiles" line then some "request_latencies_percentiles"
  else if containsSubS "RPS percentiles (requests)" line then some "rps_percentiles"
  else none

/-- The fresh block installed by
`results.setdefault(key, {"percentiles": [], "min_max": {}})`. -/
def emptyBlock : Val :=
  Val.vdict [("percentiles", Val.vlist []), ("min_max", Val.vdict [])]

/-- The entry appended for a matched percentile line:
`{f"percentile_{percentile}": {"latency": latency, "samples": samples}}`. -/
def percEntry (p lat samp : String) : Val :=
  Val.vdict [("percentile_" ++ p,
    Val.vdict [("latency", Val.vstr lat), ("samples", Val.vstr samp)])]

/-- `current_percentiles["percentiles"].append(entry)` on the active
block.  The fallthrough branches are unreachable: every block stored
under a category key carries a `"percentiles"` list (invariant proved
below as `resultWF`). -/
def appendPerc (entry : Val) : Val → Val
  | Val.vdict kvs =>
    match dget kvs "percentiles" with
    | some (Val.vlist l) => Val.vdict (dset kvs "percentiles" (Val.vlist (l ++ [entry])))
    | _ => Val.vdict kvs
  | v => v

/-- `current_percentiles["min_max"]["min"] = mn` then
`current_percentiles["min_max"]["max"] = mx` on the active block.  The
fallthrough branches are unreachable, as for `appendPerc`. -/
def setMinMax (mn mx : String) : Val → Val
  | Val.vdict kvs =>
    match dget kvs "min_max" with
    | some (Val.vdict mm) =>
      Val.vdict (dset kvs "min_max" (Val.vdict (dset (dset mm "min" (Val.vstr mn)) "max" (Val.vstr mx))))
    | _ => Val.vdict kvs
  | v => v

/-- Mutation through the `current_percentiles` alias: update the value
stored under the active category key.  The key is always present when a
category is active (they are assigned together in the source). -/
def modifyBlock (res : Dict) (k : String) (f : Val → Val) : Dict :=
  match dget res k with
  | some v => dset res k (f v)
  | none => res

/-- The category-header scan at the top of the per-line loop: on a match
switch the current category and `setdefault` its block (reusing an
existing block); otherwise keep the previous category. -/
def applyHeader (res : Dict) (cur : Option String) (line : String) : Dict × Option String :=
  match findCategory line with
  | some ck => (if (dget res ck).isSome then res else dset res ck emptyBlock, some ck)
  | none => (res, cur)

/-- The body of the per-line loop once a category is active and the line
is non-blank: try the percentile pattern, else the `min=`/`max=` pattern
(guarded by a substring test), else the `average rps:` pattern (likewise
guarded); unmatched lines leave the results untouched. -/
def applyBody (res : Dict) (ck : String) (line : String) : Dict :=
  match percParse line.data with
  | some (p, lat, samp) => modifyBlock res ck (appendPerc (percEntry p lat samp))
  | none =>
    if containsSubS "min=" line then
      match minMaxParse line.data with
      | some (mn, mx) => modifyBlock res ck (setMinMax mn mx)
      | none => res
    else if containsSubS "average rps:" line then
      match avgParse line.data with
      | some q => dset res "average_rps" (Val.vnum q)
      | none => res
    else res

/-- One iteration of `for line in data:` in `parse_schbench_data`,
acting on the pair (results, current category). -/
def processLine (st : Dict × Option String) (line : String) : Dict × Option String :=
  match applyHeader st.1 st.2 line with
  | (res, none) => (res, none)
  | (res, some ck) =>
    if hasNonSpace line then (applyBody res ck line, some ck) else (res, some ck)

/-- The test `"Wakeup Latencies percentiles" in line`. -/
def hasHeader (line : String) : Bool :=
  containsSubS "Wakeup Latencies percentiles" line

/-- Index of the last line containing the wakeup header, `none` when the
Python scan would leave `last_occurrence_index == -1`. -/
def lastIdx? : List String → Option Nat
  | [] => none
  | l :: ls =>
    match lastIdx? ls with
    | some i => some (i + 1)
    | none => if hasHeader l then some 0 else none

/-- `parse_schbench_data(self, data)`: find the last occurrence of the
wakeup header; if absent return the empty dict, else fold the per-line
step over the suffix starting at that occurrence, with no category
active initially. -/
def parse_schbench_data (data : List String) : Dict :=
  match lastIdx? data with
  | none => []
  | some i => ((data.drop i).foldl processLine ([], none)).1

/-- `s.replace(',', '')`. -/
def removeCommas (cs : List Char) : List Char :=
  cs.filter (fun c => c ≠ ',')

/-- Split a character list at every `'.'` (Python `str.split('.')`),
used to model `float()` on digit-and-dot strings. -/
def splitDots : List Char → List (List Char)
  | [] => [[]]
  | '.' :: rest => [] :: splitDots rest
  | c :: rest =>
    match splitDots rest with
    | p :: ps => (c :: p) :: ps
    | [] => [[c]]

/-- Python's `float()` restricted to strings of digits and dots, the
only character set that can reach the two `float()` calls of
`parse_perf_data` (the regex groups allow `[\d,.]` and commas are
removed first).  `float` accepts `"12"`, `"12.5"`, `"12."`, `".5"` and
raises `ValueError` (modelled as `none`) on `""`, `"."`, or more than
one dot. -/
def pyFloat (cs : List Char) : Option ℚ :=
  if cs.all (fun c => c.isDigit || c = '.') then
    match splitDots cs with
    | [d] => if d.isEmpty then none else some (digitsToNat d : ℚ)
    | [a, b] => if a.isEmpty && b.isEmpty then none else some (decimalToRat a b)
    | _ => none
  else none

/-- `re.match(r'\s*([\d,.]+)\s+([^#]+)\s+#\s*([\d,.]+)\s*([^#]+)?', line)`
returning groups 1-4.  The only ambiguous stretch is
`\s+([^#]+)\s+#`: since `[^#]` also matches whitespace, backtracking
resolves it as follows.  Writing `b` for the text between group 1 and
the first `#` (all of `\s+`, the group and the second `\s+` exclude
`#`, so only the first `#` can be matched), the engine maximises the
leading `\s+`, then the group, then needs at least one whitespace
before `#`; this succeeds exactly when `b` starts with whitespace, has
length at least 3, and ends with whitespace, and then the leading
`\s+` takes `min(k, len(b) - 2)` characters (`k` = length of the
whitespace run starting `b`) and the group runs from there to the
character before the final whitespace.  After `#`, the classes of
`\s*([\d,.]+)\s*` are pairwise disjoint, and the trailing optional
group `([^#]+)?` is unmatched (`None`) exactly when nothing non-empty
remains at its position. -/
def perfMatch (cs : List Char) : Option (List Char × List Char × List Char × Option (List Char)) :=
  let t := cs.dropWhile pySpace
  let g1 := t.takeWhile isNumChar
  let t1 := t.dropWhile isNumChar
  if g1.isEmpty then none else
  let b := t1.takeWhile (fun c => c ≠ '#')
  let t2 := t1.dropWhile (fun c => c ≠ '#')
  match t2 with
  | [] => none
  | _ :: afterHash =>
    let k := (b.takeWhile pySpace).length
    if 1 ≤ k ∧ 3 ≤ b.length ∧ (b.getLast?.map pySpace = some true) then
      let s := min k (b.length - 2)
      let g2 := (b.drop s).dropLast
      let u := afterHash.dropWhile pySpace
      let g3 := u.takeWhile isNumChar
      let u1 := u.dropWhile isNumChar
      if g3.isEmpty then none else
      let u2 := u1.dropWhile pySpace
      let g4 := u2.takeWhile (fun c => c ≠ '#')
      some (g1, g2, g3, if g4.isEmpty then none else some g4)
    else none

/-- `results[key][field] = float(...)`: update the inner per-counter
dict.  The fallthrough is unreachable: the key was just ensured to hold
a dict. -/
def perfSet (results : Dict) (key field : String) (q : ℚ) : Dict :=
  match dget results key with
  | some (Val.vdict kvs) => dset results key (Val.vdict (dset kvs field (Val.vnum q)))
  | _ => results

/-- The body of `parse_perf_data`'s loop for one eligible line: on a
regex match, strip commas and whitespace from the numeric groups, ensure
`results[key]` exists, set its `"raw"` field, and when a unit suffix was
captured set the unit-keyed field.  A failing `float()` conversion
(Python `ValueError`) is `none`. -/
def perfLineStep (results : Dict) (line : String) : Option Dict :=
  match perfMatch line.data with
  | none => some results
  | some (g1, g2, g3, g4) =>
    let rawValue := pyStrip (removeCommas g1)
    let key := String.mk (pyStrip g2)
    let unitValue := pyStrip (removeCommas g3)
    let unitStr := String.mk (match g4 with | some u => pyStrip u | none => [])
    let results := if (dget results key).isSome then results else dset results key (Val.vdict [])
    match pyFloat rawValue with
    | none => none
    | some rv =>
      let results := perfSet results key "raw" rv
      if unitStr ≠ "" then
        match pyFloat unitValue with
        | none => none
        | some uv => some (perfSet results key unitStr uv)
      else some results

/-- The loop of `parse_perf_data`: the marker line sets the
`in_performance_stats` flag and is itself skipped via `continue`;
afterwards every non-blank line goes through `perfLineStep`. -/
def perfGo (results : Dict) (inStats : Bool) : List String → Option Dict
  | [] => some results
  | l :: ls =>
    if containsSubS "Performance counter stats" l then perfGo results true ls
    else if inStats && hasNonSpace l then
      match perfLineStep results l with
      | none => none
      | some results' => perfGo results' inStats ls
    else perfGo results inStats ls

/-- `parse_perf_data(self, data)`; `none` models the propagation of a
`ValueError` raised by `float()` on a malformed numeric group. -/
def parse_perf_data (data : List String) : Option Dict :=
  perfGo [] false data

/-! ## Association-list dictionary lemmas -/

theorem dget_dset_self (d : Dict) (k : String) (v : Val) : dget (dset d k v) k = some v := by
  induction d with
  | nil => simp [dget, dset]
  | cons kv rest ih =>
    obtain ⟨k', v'⟩ := kv
    by_cases h : k' = k
    · simp [dget, dset, h]
    · simp [dget, dset, h, ih]

theorem dget_dset_ne (d : Dict) (k k' : String) (v : Val) (h : k' ≠ k) :
    dget (dset d k v) k' = dget d k' := by
  have hk : ¬ k = k' := fun hc => h hc.symm
  induction d with
  | nil => simp [dget, dset, hk]
  | cons kv rest ih =>
    obtain ⟨k0, v0⟩ := kv
    by_cases h0 : k0 = k
    · subst h0
      simp [dget, dset, hk]
    · simp [dget, dset, h0, ih]

theorem mem_dset (d : Dict) (k : String) (v : Val) :
    ∀ kv ∈ dset d k v, kv = (k, v) ∨ kv ∈ d := by
  induction d with
  | nil =>
    intro kv hkv
    simp only [dset, List.mem_singleton] at hkv
    exact Or.inl hkv
  | cons kv0 rest ih =>
    obtain ⟨k0, v0⟩ := kv0
    intro kv hkv
    simp only [dset] at hkv
    by_cases h : k0 = k
    · rw [if_pos h] at hkv
      rcases List.mem_cons.mp hkv with h1 | h1
      · exact Or.inl h1
      · exact Or.inr (List.mem_cons_of_mem _ h1)
    · rw [if_neg h] at hkv
      rcases List.mem_cons.mp hkv with h1 | h1
      · exact Or.inr (h1 ▸ List.mem_cons_self _ _)
      · rcases ih kv h1 with h2 | h2
        · exact Or.inl h2
        · exact Or.inr (List.mem_cons_of_mem _ h2)

theorem dget_mem (d : Dict) (k : String) (v : Val) (h : dget d k = some v) : (k, v) ∈ d := by
  induction d with
  | nil => simp [dget] at h
  | cons kv0 rest ih =>
    obtain ⟨k0, v0⟩ := kv0
    by_cases h0 : k0 = k
    · subst h0
      simp only [dget, if_pos rfl] at h
      rw [if_pos trivial] at h
      simp [Option.some.injEq] at h
      simp [h]
    · simp only [dget, if_neg h0] at h
      exact List.mem_cons_of_mem _ (ih h)

theorem dget_dset_isSome (d : Dict) (k k' : String) (v : Val) (h : (dget d k').isSome) :
    (dget (dset d k v) k').isSome := by
  by_cases hk : k' = k
  · subst hk
    simp [dget_dset_self]
  · rwa [dget_dset_ne d k k' v hk]

/-! ## Last-occurrence lemmas -/

theorem lastIdx?_append (pre tail : List String) (j : Nat) (h : lastIdx? tail = some j) :
    lastIdx? (pre ++ tail) = some (pre.length + j) := by
  induction pre with
  | nil => simpa using h
  | cons x rest ih =>
    rw [List.cons_append]
    simp only [lastIdx?, ih, List.length_cons, Option.some.injEq]
    omega

theorem lastIdx?_isSome_of_mem (tail : List String) (l : String) (hl : l ∈ tail)
    (hh : hasHeader l = true) : (lastIdx? tail).isSome := by
  induction tail with
  | nil => simp at hl
  | cons x rest ih =>
    simp only [lastIdx?]
    rcases List.mem_cons.mp hl with h | h
    · subst h
      cases hrest : lastIdx? rest with
      | none => simp [hh]
      | some i => simp
    · have := ih h
      cases hrest : lastIdx? rest with
      | none => rw [hrest] at this; simp at this
      | some i => simp

theorem lastIdx?_none (data : List String) (h : ∀ l ∈ data, hasHeader l = false) :
    lastIdx? data = none := by
  induction data with
  | nil => rfl
  | cons x rest ih =>
    have hx : hasHeader x = false := h x (List.mem_cons_self _ _)
    have hrest : lastIdx? rest = none := ih (fun l hl => h l (List.mem_cons_of_mem _ hl))
    simp [lastIdx?, hrest, hx]

theorem lastIdx?_drop_hasHeader (data : List String) (i : Nat) (h : lastIdx? data = some i) :
    ∃ l rest, data.drop i = l :: rest ∧ hasHeader l = true := by
  induction data generalizing i with
  | nil => simp [lastIdx?] at h
  | cons x xs ih =>
    simp only [lastIdx?] at h
    cases hxs : lastIdx? xs with
    | some j =>
      rw [hxs] at h
      simp only [Option.some.injEq] at h
      subst h
      simpa using ih j hxs
    | none =>
      rw [hxs] at h
      by_cases hx : hasHeader x = true
      · rw [if_pos hx] at h
        simp only [Option.some.injEq] at h
        subst h
        exact ⟨x, xs, rfl, hx⟩
      · rw [if_neg hx] at h
        simp at h

/-! ## Claims C1 and C2 -/

/-- C1: `parse_schbench_data` processes lines only from the last
occurrence of the "Wakeup Latencies percentiles" header onward: for any
prefix `pre` (arbitrary garbage lines and/or a full duplicate warm-up
pass) prepended to a block `tail` that contains the header, the result
is that of parsing `tail` alone, so only the suffix from the last header
occurrence influences the output. -/
theorem parse_from_last_header (pre tail : List String)
    (h : ∃ l ∈ tail, hasHeader l = true) :
    parse_schbench_data (pre ++ tail) = parse_schbench_data tail := by
  obtain ⟨l, hl, hh⟩ := h
  obtain ⟨j, hj⟩ := Option.isSome_iff_exists.mp (lastIdx?_isSome_of_mem tail l hl hh)
  simp only [parse_schbench_data, hj, lastIdx?_append pre tail j hj, List.drop_append]

/-- Witness for C1: garbage plus a duplicate warm-up pass before the
final pass does not change the output of the single-pass input. -/
theorem parse_from_last_header_witness :
    parse_schbench_data
      (["garbage line", "Wakeup Latencies percentiles", "  10.00th: 8 (2 samples)"] ++
        ["Wakeup Latencies percentiles", "  42.50th: 1234 (10 samples)"]) =
    parse_schbench_data ["Wakeup Latencies percentiles", "  42.50th: 1234 (10 samples)"] :=
  parse_from_last_header _ _
    ⟨"Wakeup Latencies percentiles", List.mem_cons_self _ _, by decide⟩

/-- C2: when no line contains the "Wakeup Latencies percentiles"
substring, `parse_schbench_data` returns the empty mapping (the parser
is a total function, so no error is possible). -/
theorem parse_no_header_empty (data : List String)
    (h : ∀ l ∈ data, hasHeader l = false) : parse_schbench_data data = [] := by
  simp [parse_schbench_data, lastIdx?_none data h]

/-- Witness for C2 at a concrete header-free input. -/
theorem parse_no_header_empty_witness :
    parse_schbench_data ["Request Latencies percentiles", "  42.50th: 1234 (10 samples)",
      "min=5, max=900", "average rps: 1234.56"] = [] :=
  parse_no_header_empty _ (by decide)

/-! ## Claim C4 -/

/-- C4: on the marker line followed by the cycles counter line,
`parse_perf_data` returns `cycles` mapped to raw value `1234567` (commas
stripped before conversion) and `GHz` mapped to `2.5`. -/
theorem perf_parses_cycles_line :
    parse_perf_data ["Performance counter stats:",
      "    1,234,567      cycles                    #    2.500 GHz"] =
    some [("cycles", Val.vdict [("raw", Val.vnum 1234567), ("GHz", Val.vnum 2.5)])] := by
  with_unfolding_all rfl

/-! ## Claim C8 (corrected) -/

/-- A line of `parse_schbench_data`'s scan that matches none of the
patterns: no category header, no percentile match, and a failing
min/max (resp. average-rps) match whenever its guarding substring test
fires. -/
def schNoMatch (line : String) : Prop :=
  findCategory line = none ∧ percParse line.data = none ∧
  (containsSubS "min=" line = true → minMaxParse line.data = none) ∧
  (containsSubS "average rps:" line = true → avgParse line.data = none)

/-- Counterexample to C8 as stated: `parse_perf_data` does not always
return a mapping.  The line `"1.2.3 a #1 x"` matches the counter regex
with numeric group `"1.2.3"`, and Python's `float("1.2.3")` raises
`ValueError` (modelled as `none`). -/
theorem perf_can_raise_on_malformed_number :
    parse_perf_data ["Performance counter stats", "1.2.3 a #1 x"] = none := by
  rfl

/-- C8 amended: `parse_schbench_data` silently skips every line matching
none of its patterns (and, being a total function, never fails), and
`parse_perf_data` silently skips every line not matching the counter
regex; however a matched line whose numeric text is not a valid float
literal makes `parse_perf_data` raise (see the counterexample). -/
theorem parsers_skip_unrecognized_lines :
    (∀ res cur line, schNoMatch line → processLine (res, cur) line = (res, cur)) ∧
    (∀ res line, perfMatch line.data = none → perfLineStep res line = some res) := by
  constructor
  · intro res cur line h
    obtain ⟨h1, h2, h3, h4⟩ := h
    have hbody : ∀ ck, applyBody res ck line = res := by
      intro ck
      by_cases hm : containsSubS "min=" line
      · simp [applyBody, h2, hm, h3 hm]
      · by_cases ha : containsSubS "average rps:" line
        · simp [applyBody, h2, hm, ha, h4 ha]
        · simp [applyBody, h2, hm, ha]
    cases cur with
    | none => simp [processLine, applyHeader, h1]
    | some ck =>
      by_cases hns : hasNonSpace line
      · simp [processLine, applyHeader, h1, hns, hbody]
      · simp [processLine, applyHeader, h1, hns]
  · intro res line h
    simp [perfLineStep, h]

/-- Witness for the amended C8 at concrete unrecognized lines. -/
theorem parsers_skip_unrecognized_lines_witness :
    processLine ([("average_rps", Val.vnum 5)], some "wakeup_latencies_percentiles")
        "current rps: 300" =
      ([("average_rps", Val.vnum 5)], some "wakeup_latencies_percentiles") ∧
    perfLineStep [] "no counter data here" = some [] :=
  ⟨parsers_skip_unrecognized_lines.1 _ _ _ (by constructor <;> decide),
   parsers_skip_unrecognized_lines.2 _ _ (by decide)⟩

/-! ## Claim C3 (corrected) -/

/-- Counterexample to C3 as stated: the entry appended for
`"  42.50th: 1234 (10 samples)"` under an active wakeup category is the
nested `{"percentile_42.50": {"latency": "1234", "samples": "10"}}`, not
the flat `{percentile: "42.50", latency: "1234", samples: "10"}`. -/
theorem perc_entry_is_nested_not_flat :
    parse_schbench_data ["Wakeup Latencies percentiles", "  42.50th: 1234 (10 samples)"] =
      [("wakeup_latencies_percentiles", Val.vdict
        [("percentiles", Val.vlist [percEntry "42.50" "1234" "10"]),
         ("min_max", Val.vdict [])])] ∧
    percEntry "42.50" "1234" "10" ≠
      Val.vdict [("percentile", Val.vstr "42.50"), ("latency", Val.vstr "1234"),
        ("samples", Val.vstr "10")] := by
  refine ⟨rfl, ?_⟩
  intro h
  simp [percEntry] at h

/-- C3 amended: under an active category, a percentile line appends to
that category's percentiles sequence the nested entry
`{"percentile_<value>": {"latency": ..., "samples": ...}}`, with the
percentile value in the key and latency and samples as decimal
strings. -/
theorem perc_line_appends_nested_entry (res : Dict) (ck : String)
    (kvs : List (String × Val)) (entries : List Val)
    (hres : dget res ck = some (Val.vdict kvs))
    (hkvs : dget kvs "percentiles" = some (Val.vlist entries)) :
    processLine (res, some ck) "  42.50th: 1234 (10 samples)" =
      (dset res ck (Val.vdict (dset kvs "percentiles"
        (Val.vlist (entries ++ [percEntry "42.50" "1234" "10"])))), some ck) := by
  have hfc : findCategory "  42.50th: 1234 (10 samples)" = none := by decide
  have hns : hasNonSpace "  42.50th: 1234 (10 samples)" = true := by decide
  have hperc : percParse ("  42.50th: 1234 (10 samples)").data =
      some ("42.50", "1234", "10") := by decide
  simp only [processLine, applyHeader, hfc, hns, if_true, applyBody, hperc,
    modifyBlock, hres, appendPerc, hkvs]

/-! ## Well-formedness invariant of the schbench result dict -/

/-- The three values `current_category` can take. -/
def isCatKey (k : String) : Prop :=
  k = "wakeup_latencies_percentiles" ∨ k = "request_latencies_percentiles" ∨
    k = "rps_percentiles"

/-- A member of a percentiles sequence: a nested single-key dict with
string-typed latency and samples. -/
def entryWF (v : Val) : Prop :=
  ∃ p lat samp, v = percEntry p lat samp

/-- A min/max dict: only `"min"`/`"max"` keys, with string values. -/
def mmWF (mm : List (String × Val)) : Prop :=
  ∀ kv ∈ mm, (kv.1 = "min" ∨ kv.1 = "max") ∧ ∃ s, kv.2 = Val.vstr s

/-- A category block: exactly the keys `"percentiles"` (a list of
well-formed entries) and `"min_max"` (a well-formed min/max dict). -/
def blockWF (v : Val) : Prop :=
  ∃ entries mm,
    v = Val.vdict [("percentiles", Val.vlist entries), ("min_max", Val.vdict mm)] ∧
    (∀ e ∈ entries, entryWF e) ∧ mmWF mm

/-- Shape of the whole result dict: `"average_rps"` maps to a number and
every other key is a category key mapping to a well-formed block. -/
def resultWF (res : Dict) : Prop :=
  ∀ kv ∈ res, (kv.1 = "average_rps" ∧ ∃ q, kv.2 = Val.vnum q) ∨
    (isCatKey kv.1 ∧ blockWF kv.2)

theorem findCategory_isCatKey (line : String) (ck : String)
    (h : findCategory line = some ck) : isCatKey ck := by
  unfold findCategory at h
  by_cases h1 : containsSubS "Wakeup Latencies percentiles" line
  · rw [if_pos h1] at h
    exact Or.inl (Option.some.inj h).symm
  · rw [if_neg h1] at h
    by_cases h2 : containsSubS "Request Latencies percentiles" line
    · rw [if_pos h2] at h
      exact Or.inr (Or.inl (Option.some.inj h).symm)
    · rw [if_neg h2] at h
      by_cases h3 : containsSubS "RPS percentiles (requests)" line
      · rw [if_pos h3] at h
        exact Or.inr (Or.inr (Option.some.inj h).symm)
      · rw [if_neg h3] at h
        exact absurd h (by simp)

theorem blockWF_emptyBlock : blockWF emptyBlock :=
  ⟨[], [], rfl, by simp, by simp [mmWF]⟩

theorem mmWF_dset (mm : List (String × Val)) (k : String) (s : String)
    (hmm : mmWF mm) (hk : k = "min" ∨ k = "max") : mmWF (dset mm k (Val.vstr s)) := by
  intro kv hkv
  rcases mem_dset mm k (Val.vstr s) kv hkv with h | h
  · subst h
    exact ⟨hk, s, rfl⟩
  · exact hmm kv h

theorem blockWF_appendPerc (v e : Val) (hv : blockWF v) (he : entryWF e) :
    blockWF (appendPerc e v) := by
  obtain ⟨entries, mm, hv, hent, hmm⟩ := hv
  subst hv
  refine ⟨entries ++ [e], mm, ?_, ?_, hmm⟩
  · simp [appendPerc, dget, dset]
  · intro x hx
    rcases List.mem_append.mp hx with h | h
    · exact hent x h
    · rw [List.mem_singleton.mp h]
      exact he

theorem blockWF_setMinMax (v : Val) (mn mx : String) (hv : blockWF v) :
    blockWF (setMinMax mn mx v) := by
  obtain ⟨entries, mm, hv, hent, hmm⟩ := hv
  subst hv
  refine ⟨entries, dset (dset mm "min" (Val.vstr mn)) "max" (Val.vstr mx), ?_, hent, ?_⟩
  · simp [setMinMax, dget, dset]
  · exact mmWF_dset _ _ _ (mmWF_dset _ _ _ hmm (Or.inl rfl)) (Or.inr rfl)

theorem appendPerc_vnum (e : Val) (q : ℚ) : appendPerc e (Val.vnum q) = Val.vnum q := rfl

theorem setMinMax_vnum (mn mx : String) (q : ℚ) :
    setMinMax mn mx (Val.vnum q) = Val.vnum q := rfl

theorem resultWF_modifyBlock (res : Dict) (ck : String) (f : Val → Val)
    (h : resultWF res) (hf : ∀ v, blockWF v → blockWF (f v))
    (hfn : ∀ q, f (Val.vnum q) = Val.vnum q) : resultWF (modifyBlock res ck f) := by
  unfold modifyBlock
  cases hv : dget res ck with
  | none => exact h
  | some v =>
    intro kv hkv
    rcases mem_dset res ck (f v) kv hkv with h1 | h1
    · subst h1
      rcases h (ck, v) (dget_mem res ck v hv) with ⟨hk, q, hq⟩ | ⟨hk, hb⟩
      · refine Or.inl ⟨hk, q, ?_⟩
        show f v = Val.vnum q
        rw [show v = Val.vnum q from hq, hfn]
      · exact Or.inr ⟨hk, hf v hb⟩
    · exact h kv h1

theorem resultWF_applyHeader (res : Dict) (cur : Option String) (line : String)
    (h : resultWF res) : resultWF (applyHeader res cur line).1 := by
  unfold applyHeader
  cases hfc : findCategory line with
  | none => exact h
  | some ck =>
    by_cases hp : (dget res ck).isSome
    · simpa [hp] using h
    · simp only [hp, if_false]
      intro kv hkv
      rcases mem_dset res ck emptyBlock kv hkv with h1 | h1
      · subst h1
        exact Or.inr ⟨findCategory_isCatKey line ck hfc, blockWF_emptyBlock⟩
      · exact h kv h1

theorem resultWF_applyBody (res : Dict) (ck : String) (line : String)
    (h : resultWF res) : resultWF (applyBody res ck line) := by
  unfold applyBody
  cases hp : percParse line.data with
  | some g =>
    obtain ⟨p, lat, samp⟩ := g
    exact resultWF_modifyBlock res ck _ h
      (fun v hv => blockWF_appendPerc v _ hv ⟨p, lat, samp, rfl⟩)
      (fun q => appendPerc_vnum _ q)
  | none =>
    by_cases hm : containsSubS "min=" line
    · simp only [hm, if_true]
      cases hmm : minMaxParse line.data with
      | none => exact h
      | some g =>
        obtain ⟨mn, mx⟩ := g
        exact resultWF_modifyBlock res ck _ h
          (fun v hv => blockWF_setMinMax v mn mx hv) (fun q => setMinMax_vnum mn mx q)
    · simp only [hm, if_false]
      by_cases ha : containsSubS "average rps:" line
      · simp only [ha, if_true]
        cases hq : avgParse line.data with
        | none => exact h
        | some q =>
          intro kv hkv
          rcases mem_dset res "average_rps" (Val.vnum q) kv hkv with h1 | h1
          · subst h1
            exact Or.inl ⟨rfl, q, rfl⟩
          · exact h kv h1
      · simp only [ha, if_false]
        exact h

theorem resultWF_processLine (st : Dict × Option String) (line : String)
    (h : resultWF st.1) : resultWF (processLine st line).1 := by
  have hh := resultWF_applyHeader st.1 st.2 line h
  unfold processLine
  cases hah : applyHeader st.1 st.2 line with
  | mk res' cur' =>
    rw [hah] at hh
    cases cur' with
    | none => exact hh
    | some ck =>
      by_cases hns : hasNonSpace line
      · simpa [hns] using resultWF_applyBody _ ck line hh
      · simpa [hns] using hh

theorem resultWF_foldl (ls : List String) (st : Dict × Option String)
    (h : resultWF st.1) : resultWF ((ls.foldl processLine st).1) := by
  induction ls generalizing st with
  | nil => exact h
  | cons l rest ih => exact ih _ (resultWF_processLine st l h)

/-- The final result of `parse_schbench_data` is always well-formed. -/
theorem parse_schbench_data_WF (data : List String) :
    resultWF (parse_schbench_data data) := by
  unfold parse_schbench_data
  cases h : lastIdx? data with
  | none => intro kv hkv; simp at hkv
  | some i => exact resultWF_foldl _ _ (by intro kv hkv; simp at hkv)

/-! ## Key-presence monotonicity and claim C9 -/

theorem dget_isSome_applyHeader (res : Dict) (cur : Option String) (line : String)
    (k : String) (h : (dget res k).isSome) :
    (dget (applyHeader res cur line).1 k).isSome := by
  unfold applyHeader
  cases hfc : findCategory line with
  | none => exact h
  | some ck =>
    by_cases hp : (dget res ck).isSome
    · simpa [hp] using h
    · simp only [hp, if_false]
      exact dget_dset_isSome res ck k emptyBlock h

theorem dget_isSome_applyBody (res : Dict) (ck : String) (line : String)
    (k : String) (h : (dget res k).isSome) :
    (dget (applyBody res ck line) k).isSome := by
  unfold applyBody
  cases hp : percParse line.data with
  | some g =>
    obtain ⟨p, lat, samp⟩ := g
    unfold modifyBlock
    cases hv : dget res ck with
    | none => exact h
    | some v => exact dget_dset_isSome res ck k _ h
  | none =>
    by_cases hm : containsSubS "min=" line
    · simp only [hm, if_true]
      cases hmm : minMaxParse line.data with
      | none => exact h
      | some g =>
        obtain ⟨mn, mx⟩ := g
        unfold modifyBlock
        cases hv : dget res ck with
        | none => exact h
        | some v => exact dget_dset_isSome res ck k _ h
    · simp only [hm, if_false]
      by_cases ha : containsSubS "average rps:" line
      · simp only [ha, if_true]
        cases hq : avgParse line.data with
        | none => exact h
        | some q => exact dget_dset_isSome res "average_rps" k _ h
      · simp only [ha, if_false]
        exact h

theorem dget_isSome_processLine (st : Dict × Option String) (line : String)
    (k : String) (h : (dget st.1 k).isSome) :
    (dget (processLine st line).1 k).isSome := by
  have hh := dget_isSome_applyHeader st.1 st.2 line k h
  unfold processLine
  cases hah : applyHeader st.1 st.2 line with
  | mk res' cur' =>
    rw [hah] at hh
    cases cur' with
    | none => exact hh
    | some ck =>
      by_cases hns : hasNonSpace line
      · simpa [hns] using dget_isSome_applyBody res' ck line k hh
      · simpa [hns] using hh

theorem dget_isSome_foldl (ls : List String) (st : Dict × Option String)
    (k : String) (h : (dget st.1 k).isSome) :
    (dget ((ls.foldl processLine st).1) k).isSome := by
  induction ls generalizing st with
  | nil => exact h
  | cons l rest ih => exact ih _ (dget_isSome_processLine st l k h)

theorem findCategory_of_hasHeader (line : String) (h : hasHeader line = true) :
    findCategory line = some "wakeup_latencies_percentiles" := by
  have h' : containsSubS "Wakeup Latencies percentiles" line = true := h
  unfold findCategory
  rw [if_pos h']

/-- Processing a line that contains the wakeup header leaves the wakeup
key present in the results. -/
theorem wakeup_isSome_processLine (st : Dict × Option String) (line : String)
    (h : hasHeader line = true) :
    (dget (processLine st line).1 "wakeup_latencies_percentiles").isSome := by
  have hah : (dget (applyHeader st.1 st.2 line).1 "wakeup_latencies_percentiles").isSome := by
    have heq : applyHeader st.1 st.2 line =
        (if (dget st.1 "wakeup_latencies_percentiles").isSome then st.1
         else dset st.1 "wakeup_latencies_percentiles" emptyBlock,
         some "wakeup_latencies_percentiles") := by
      unfold applyHeader
      rw [findCategory_of_hasHeader line h]
    rw [heq]
    by_cases hp : (dget st.1 "wakeup_latencies_percentiles").isSome
    · rw [if_pos hp]
      exact hp
    · rw [if_neg hp]
      simp [dget_dset_self]
  unfold processLine
  cases hpair : applyHeader st.1 st.2 line with
  | mk res' cur' =>
    rw [hpair] at hah
    cases cur' with
    | none => exact hah
    | some ck =>
      by_cases hns : hasNonSpace line
      · simpa [hns] using dget_isSome_applyBody res' ck line _ hah
      · simpa [hns] using hah

/-- C9: (a) every category key present in the result maps to a block
with exactly the keys `"percentiles"` (a sequence) and `"min_max"` (a
mapping); (b) whenever some input line contains the wakeup header, the
result contains the `"wakeup_latencies_percentiles"` key bound to such a
block (even if nothing follows the header); (c) a category-header line
whose category already has a block reuses it: the results dict is
returned unchanged, only the current category switches. -/
theorem category_blocks_shape :
    (∀ data k v, isCatKey k → dget (parse_schbench_data data) k = some v → blockWF v) ∧
    (∀ data, (∃ l ∈ data, hasHeader l = true) →
      ∃ v, dget (parse_schbench_data data) "wakeup_latencies_percentiles" = some v ∧
        blockWF v) ∧
    (∀ res cur line ck v, findCategory line = some ck → dget res ck = some v →
      applyHeader res cur line = (res, some ck)) := by
  refine ⟨?_, ?_, ?_⟩
  · intro data k v hk hv
    rcases parse_schbench_data_WF data (k, v)
        (dget_mem _ k v hv) with ⟨hk1, q, hq⟩ | ⟨hk1, hb⟩
    · exfalso
      rcases hk with h | h | h <;> subst h <;> simp at hk1
    · exact hb
  · intro data hex
    obtain ⟨l, hl, hh⟩ := hex
    obtain ⟨i, hi⟩ := Option.isSome_iff_exists.mp (lastIdx?_isSome_of_mem data l hl hh)
    obtain ⟨l0, rest, hdrop, hh0⟩ := lastIdx?_drop_hasHeader data i hi
    have hsome : (dget (parse_schbench_data data) "wakeup_latencies_percentiles").isSome := by
      have heq : parse_schbench_data data = ((l0 :: rest).foldl processLine ([], none)).1 := by
        simp only [parse_schbench_data, hi, hdrop]
      rw [heq, List.foldl_cons]
      exact dget_isSome_foldl rest _ _ (wakeup_isSome_processLine ([], none) l0 hh0)
    obtain ⟨v, hv⟩ := Option.isSome_iff_exists.mp hsome
    refine ⟨v, hv, ?_⟩
    rcases parse_schbench_data_WF data (_, v) (dget_mem _ _ v hv) with ⟨hk1, _, _⟩ | ⟨_, hb⟩
    · simp at hk1
    · exact hb
  · intro res cur line ck v hfc hv
    unfold applyHeader
    rw [hfc]
    simp [hv]

/-- Witness for C9 at concrete inputs: a header-only input yields the
empty wakeup block, and a repeated header line leaves an existing
results dict unchanged. -/
theorem category_blocks_shape_witness :
    (∃ v, dget (parse_schbench_data ["Wakeup Latencies percentiles"])
        "wakeup_latencies_percentiles" = some v ∧ blockWF v) ∧
    applyHeader [("wakeup_latencies_percentiles", emptyBlock)] none
        "Wakeup Latencies percentiles" =
      ([("wakeup_latencies_percentiles", emptyBlock)],
        some "wakeup_latencies_percentiles") :=
  ⟨category_blocks_shape.2.1 ["Wakeup Latencies percentiles"]
      ⟨"Wakeup Latencies percentiles", List.mem_cons_self _ _, by decide⟩,
   category_blocks_shape.2.2 _ none _ _ emptyBlock (by decide) rfl⟩

/-! ## Claim C5 -/

/-- C5: (i) processing the line `"average rps: 1234.56"` with any active
category writes the floating value `1234.56` under the top-level
`"average_rps"` key, leaving the current category unchanged; (ii) in any
final result, a numeric top-level value can only sit under
`"average_rps"`, and every other key holds a block whose percentile and
min/max fields are strings — the rps average is the only field converted
to a native numeric type. -/
theorem average_rps_float_top_level :
    (∀ res ck, processLine (res, some ck) "average rps: 1234.56" =
      (dset res "average_rps" (Val.vnum 1234.56), some ck)) ∧
    (∀ data k v, dget (parse_schbench_data data) k = some v →
      ((∃ q, v = Val.vnum q) → k = "average_rps") ∧
      (k ≠ "average_rps" → blockWF v)) := by
  constructor
  · have hfc : findCategory "average rps: 1234.56" = none := by decide
    have hns : hasNonSpace "average rps: 1234.56" = true := by decide
    have hperc : percParse ("average rps: 1234.56").data = none := by decide
    have hmin : containsSubS "min=" "average rps: 1234.56" = false := by decide
    have havgs : containsSubS "average rps:" "average rps: 1234.56" = true := by decide
    have havg : avgParse ("average rps: 1234.56").data = some (1234.56 : ℚ) := by
      with_unfolding_all rfl
    intro res ck
    simp only [processLine, applyHeader, hfc, hns, if_true, applyBody, hperc, hmin,
      Bool.false_eq_true, if_false, havgs, havg]
  · intro data k v hv
    have hm := parse_schbench_data_WF data (k, v) (dget_mem _ k v hv)
    constructor
    · rintro ⟨q, hq⟩
      rcases hm with ⟨hk, _, _⟩ | ⟨_, hb⟩
      · exact hk
      · exfalso
        obtain ⟨entries, mm, hbe, _, _⟩ := hb
        rw [show ((k, v) : String × Val).2 = v from rfl, hq] at hbe
        exact Val.noConfusion hbe
    · intro hne
      rcases hm with ⟨hk, _⟩ | ⟨_, hb⟩
      · exact absurd hk hne
      · exact hb

/-- Witness for C5: the concrete step, and the shape facts read off a
concrete parse containing the rps line. -/
theorem average_rps_float_top_level_witness :
    processLine ([], some "rps_percentiles") "average rps: 1234.56" =
      (dset [] "average_rps" (Val.vnum 1234.56), some "rps_percentiles") ∧
    ((∃ q, Val.vnum 1234.56 = Val.vnum q) → "average_rps" = "average_rps") :=
  ⟨average_rps_float_top_level.1 [] "rps_percentiles",
   (average_rps_float_top_level.2
      ["Wakeup Latencies percentiles", "average rps: 1234.56"] "average_rps"
      (Val.vnum 1234.56) (by with_unfolding_all rfl)).1⟩

/-! ## Claim C6 -/

/-- C6: processing `"min=5, max=900"` with an active category rewrites
that category's `min_max` dict so that `"min"` maps to the string `"5"`,
`"max"` maps to the string `"900"`, and no other key is present; the
values are kept as strings, not re-parsed to numbers. -/
theorem min_max_line_sets_bounds (res : Dict) (ck : String)
    (kvs mm : List (String × Val))
    (hres : dget res ck = some (Val.vdict kvs))
    (hkvs : dget kvs "min_max" = some (Val.vdict mm))
    (hmm : ∀ kv ∈ mm, kv.1 = "min" ∨ kv.1 = "max") :
    processLine (res, some ck) "min=5, max=900" =
      (dset res ck (Val.vdict (dset kvs "min_max"
        (Val.vdict (dset (dset mm "min" (Val.vstr "5")) "max" (Val.vstr "900"))))),
       some ck) ∧
    dget (dset (dset mm "min" (Val.vstr "5")) "max" (Val.vstr "900")) "min" =
      some (Val.vstr "5") ∧
    dget (dset (dset mm "min" (Val.vstr "5")) "max" (Val.vstr "900")) "max" =
      some (Val.vstr "900") ∧
    (∀ kv ∈ dset (dset mm "min" (Val.vstr "5")) "max" (Val.vstr "900"),
      kv.1 = "min" ∨ kv.1 = "max") := by
  refine ⟨?_, ?_, ?_, ?_⟩
  · have hfc : findCategory "min=5, max=900" = none := by decide
    have hns : hasNonSpace "min=5, max=900" = true := by decide
    have hperc : percParse ("min=5, max=900").data = none := by decide
    have hminc : containsSubS "min=" "min=5, max=900" = true := by decide
    have hmmp : minMaxParse ("min=5, max=900").data = some ("5", "900") := by decide
    simp only [processLine, applyHeader, hfc, hns, if_true, applyBody, hperc, hminc,
      hmmp, modifyBlock, hres, setMinMax, hkvs]
  · rw [dget_dset_ne _ _ _ _ (by decide), dget_dset_self]
  · rw [dget_dset_self]
  · intro kv hkv
    rcases mem_dset _ _ _ kv hkv with h | h
    · rw [h]
      exact Or.inr rfl
    · rcases mem_dset _ _ _ kv h with h2 | h2
      · rw [h2]
        exact Or.inl rfl
      · exact hmm kv h2

/-- Witness for C6 on a fresh wakeup block. -/
theorem min_max_line_sets_bounds_witness :
    processLine ([("wakeup_latencies_percentiles", emptyBlock)],
        some "wakeup_latencies_percentiles") "min=5, max=900" =
      (dset [("wakeup_latencies_percentiles", emptyBlock)] "wakeup_latencies_percentiles"
        (Val.vdict (dset [("percentiles", Val.vlist []), ("min_max", Val.vdict [])]
          "min_max" (Val.vdict (dset (dset [] "min" (Val.vstr "5")) "max"
            (Val.vstr "900"))))),
       some "wakeup_latencies_percentiles") ∧
    dget (dset (dset [] "min" (Val.vstr "5")) "max" (Val.vstr "900")) "min" =
      some (Val.vstr "5") ∧
    dget (dset (dset [] "min" (Val.vstr "5")) "max" (Val.vstr "900")) "max" =
      some (Val.vstr "900") ∧
    (∀ kv ∈ dset (dset ([] : List (String × Val)) "min" (Val.vstr "5")) "max"
        (Val.vstr "900"), kv.1 = "min" ∨ kv.1 = "max") :=
  min_max_line_sets_bounds _ _ _ _ rfl rfl (by simp)

/-! ## Claim C10 -/

theorem dropLiteral_eq (lit : List Char) : ∀ cs t : List Char,
    dropLiteral lit cs = some t → cs = lit ++ t := by
  induction lit with
  | nil =>
    intro cs t h
    simp only [dropLiteral, Option.some.injEq] at h
    rw [h]
    rfl
  | cons l ls ih =>
    intro cs t h
    cases cs with
    | nil => simp [dropLiteral] at h
    | cons c cs' =>
      by_cases hc : c = l
      · simp only [dropLiteral, if_pos hc] at h
        rw [List.cons_append, ← ih cs' t h, hc]
      · simp [dropLiteral, hc] at h

theorem isCatKey_ne_avg (ck : String) (h : isCatKey ck) : "average_rps" ≠ ck := by
  rcases h with h | h | h <;> subst h <;> decide

theorem dget_avg_applyHeader (res : Dict) (cur : Option String) (line : String) :
    dget (applyHeader res cur line).1 "average_rps" = dget res "average_rps" := by
  unfold applyHeader
  cases hfc : findCategory line with
  | none => rfl
  | some ck =>
    show dget (if (dget res ck).isSome = true then res
      else dset res ck emptyBlock) "average_rps" = dget res "average_rps"
    by_cases hp : (dget res ck).isSome
    · rw [if_pos hp]
    · rw [if_neg hp]
      exact dget_dset_ne res ck "average_rps" emptyBlock
        (isCatKey_ne_avg ck (findCategory_isCatKey line ck hfc))

theorem dget_avg_applyBody (res : Dict) (ck : String) (line : String)
    (hck : isCatKey ck) (havg : avgParse line.data = none) :
    dget (applyBody res ck line) "average_rps" = dget res "average_rps" := by
  have hne : "average_rps" ≠ ck := isCatKey_ne_avg ck hck
  unfold applyBody
  cases hp : percParse line.data with
  | some g =>
    obtain ⟨p, lat, samp⟩ := g
    unfold modifyBlock
    cases hv : dget res ck with
    | none => rfl
    | some v => exact dget_dset_ne res ck _ _ hne
  | none =>
    by_cases hm : containsSubS "min=" line
    · simp only [hm, if_true]
      cases hmm : minMaxParse line.data with
      | none => rfl
      | some g =>
        obtain ⟨mn, mx⟩ := g
        unfold modifyBlock
        cases hv : dget res ck with
        | none => rfl
        | some v => exact dget_dset_ne res ck _ _ hne
    · simp only [hm, Bool.false_eq_true, if_false]
      by_cases ha : containsSubS "average rps:" line
      · simp only [ha, if_true]
        rw [havg]
      · simp only [ha, Bool.false_eq_true, if_false]

theorem applyHeader_snd_catKey (res : Dict) (cur : Option String) (line : String)
    (ck : String) (hcur : ∀ c, cur = some c → isCatKey c)
    (h : (applyHeader res cur line).2 = some ck) : isCatKey ck := by
  unfold applyHeader at h
  cases hfc : findCategory line with
  | none =>
    rw [hfc] at h
    exact hcur ck h
  | some c =>
    rw [hfc] at h
    rw [← Option.some.inj h]
    exact findCategory_isCatKey line c hfc

theorem dget_avg_processLine (st : Dict × Option String) (line : String)
    (hcur : ∀ ck, st.2 = some ck → isCatKey ck) (havg : avgParse line.data = none) :
    dget (processLine st line).1 "average_rps" = dget st.1 "average_rps" := by
  have h1 := dget_avg_applyHeader st.1 st.2 line
  have hsnd := fun ck h => applyHeader_snd_catKey st.1 st.2 line ck hcur h
  unfold processLine
  cases hah : applyHeader st.1 st.2 line with
  | mk res' cur' =>
    rw [hah] at h1
    rw [hah] at hsnd
    cases cur' with
    | none => exact h1
    | some ck =>
      by_cases hns : hasNonSpace line
      · simp only [hns, if_true]
        rw [dget_avg_applyBody res' ck line (hsnd ck rfl) havg]
        exact h1
      · simp only [hns, Bool.false_eq_true, if_false]
        exact h1

/-- C10: the `average rps:` pattern is anchored at the first character:
(i) any line on which it matches starts with the literal
`"average rps: "`; (ii) it rejects the offset line
`" average rps: 1234.56"` and the fraction-less line
`"average rps: 1234"`; (iii) processing any line on which it fails to
match (with the current category one of the three category keys, as in
any real scan) leaves the top-level `"average_rps"` entry unchanged. -/
theorem average_rps_match_anchored :
    (∀ cs, avgParse cs ≠ none → ∃ t, cs = ("average rps: ").data ++ t) ∧
    avgParse (" average rps: 1234.56").data = none ∧
    avgParse ("average rps: 1234").data = none ∧
    (∀ st : Dict × Option String, ∀ line,
      (∀ ck, st.2 = some ck → isCatKey ck) → avgParse line.data = none →
      dget (processLine st line).1 "average_rps" = dget st.1 "average_rps") := by
  refine ⟨?_, by decide, by decide, fun st line hcur havg =>
    dget_avg_processLine st line hcur havg⟩
  intro cs h
  unfold avgParse at h
  cases hd : dropLiteral ("average rps: ").data cs with
  | none => rw [hd] at h; exact absurd rfl h
  | some t => exact ⟨t, dropLiteral_eq _ cs t hd⟩

/-- Witness for C10: applying the anchoring to a matching line and the
no-op property to an offset rps line under an active category. -/
theorem average_rps_match_anchored_witness :
    (∃ t, ("average rps: 7.5").data = ("average rps: ").data ++ t) ∧
    dget (processLine ([("average_rps", Val.vnum 3)],
        some "wakeup_latencies_percentiles") " average rps: 1234.56").1 "average_rps" =
      dget [("average_rps", Val.vnum 3)] "average_rps" :=
  ⟨average_rps_match_anchored.1 ("average rps: 7.5").data (by decide),
   average_rps_match_anchored.2.2.2 _ _
     (fun ck h => by rw [← Option.some.inj h]; exact Or.inl rfl) (by decide)⟩

/-- Witness for the amended C3 on a fresh wakeup block. -/
theorem perc_line_appends_nested_entry_witness :
    processLine ([("wakeup_latencies_percentiles", emptyBlock)],
        some "wakeup_latencies_percentiles") "  42.50th: 1234 (10 samples)" =
      (dset [("wakeup_latencies_percentiles", emptyBlock)] "wakeup_latencies_percentiles"
        (Val.vdict (dset [("percentiles", Val.vlist []), ("min_max", Val.vdict [])]
          "percentiles" (Val.vlist ([] ++ [percEntry "42.50" "1234" "10"])))),
       some "wakeup_latencies_percentiles") :=
  perc_line_appends_nested_entry _ _ _ _ rfl rfl

/-! ## Claim C7: the asterisk marker is ignored -/

theorem containsSub_cons_ne (p c : Char) (pt cs : List Char) (h : p ≠ c) :
    containsSub (p :: pt) (c :: cs) = containsSub (p :: pt) cs := by
  have hpre : (p :: pt).isPrefixOf (c :: cs) = false := by
    simp only [List.isPrefixOf, Bool.and_eq_false_iff]
    exact Or.inl (by simpa using h)
  simp [containsSub, hpre]

theorem containsSub_strip (p : Char) (pt ws l : List Char)
    (hws : ∀ c ∈ ws, pySpace c = true) (hp : pySpace p = false) :
    containsSub (p :: pt) (ws ++ l) = containsSub (p :: pt) l := by
  induction ws with
  | nil => rfl
  | cons c ws' ih =>
    have hc : pySpace c = true := hws c (List.mem_cons_self _ _)
    have hpc : p ≠ c := by
      intro h
      rw [h, hc] at hp
      exact Bool.noConfusion hp
    rw [List.cons_append, containsSub_cons_ne p c pt (ws' ++ l) hpc,
      ih (fun x hx => hws x (List.mem_cons_of_mem _ hx))]

theorem containsSub_skip (pat : List Char) (p : Char) (pt ws l : List Char)
    (hpat : pat = p :: pt) (hws : ∀ c ∈ ws, pySpace c = true) (hp : pySpace p = false) :
    containsSub pat (ws ++ l) = containsSub pat l := by
  subst hpat
  exact containsSub_strip p pt ws l hws hp

theorem containsSub_star_skip (pat : List Char) (p : Char) (pt ws rest : List Char)
    (hpat : pat = p :: pt) (hws : ∀ c ∈ ws, pySpace c = true)
    (hp : pySpace p = false) (hstar : p ≠ '*') :
    containsSub pat (ws ++ '*' :: rest) = containsSub pat rest := by
  subst hpat
  rw [containsSub_strip p pt ws _ hws hp, containsSub_cons_ne p '*' pt rest hstar]

theorem dropWhile_append_spaces (ws l : List Char)
    (hws : ∀ c ∈ ws, pySpace c = true) :
    (ws ++ l).dropWhile pySpace = l.dropWhile pySpace := by
  induction ws with
  | nil => rfl
  | cons c ws' ih =>
    have hc : pySpace c = true := hws c (List.mem_cons_self _ _)
    rw [List.cons_append, List.dropWhile_cons, if_pos hc,
      ih (fun x hx => hws x (List.mem_cons_of_mem _ hx))]

theorem isDigit_pySpace_false (c : Char) (h : c.isDigit = true) : pySpace c = false := by
  cases hsp : pySpace c with
  | false => rfl
  | true =>
    exfalso
    simp only [pySpace, Bool.or_eq_true, decide_eq_true_eq] at hsp
    rcases hsp with ((((h1 | h1) | h1) | h1) | h1) | h1 <;> subst h1 <;>
      exact absurd h (by decide)

theorem isDigit_ne (c x : Char) (h : c.isDigit = true) (hx : x.isDigit = false) : c ≠ x := by
  intro hc
  rw [hc, hx] at h
  exact Bool.noConfusion h

theorem dropLiteral_cons_ne (l c : Char) (ls cs : List Char) (h : c ≠ l) :
    dropLiteral (l :: ls) (c :: cs) = none := by
  simp [dropLiteral, h]

theorem avgParse_head_ne (c : Char) (cs : List Char) (hc : c ≠ 'a') :
    avgParse (c :: cs) = none := by
  unfold avgParse
  rw [show ("average rps: ").data = 'a' :: ("verage rps: ").data from rfl,
    dropLiteral_cons_ne 'a' c _ cs hc]

theorem minMaxParse_head_ne (cs : List Char) (c : Char) (tl : List Char)
    (h : cs.dropWhile pySpace = c :: tl) (hc : c ≠ 'm') : minMaxParse cs = none := by
  unfold minMaxParse
  rw [h, show ("min=").data = 'm' :: ("in=").data from rfl,
    dropLiteral_cons_ne 'm' c _ tl hc]

/-- C7: inserting the asterisk marker after the leading whitespace of a
percentile line (one whose first character after the whitespace is a
digit) does not change the processing of the line in any state: the
marker is matched by the `(\*?)` group and discarded. -/
theorem star_marker_ignored (st : Dict × Option String) (ws rest : List Char)
    (d : Char) (tl : List Char)
    (hws : ∀ c ∈ ws, pySpace c = true)
    (hrest : rest.dropWhile pySpace = d :: tl) (hd : d.isDigit = true) :
    processLine st (String.mk (ws ++ '*' :: rest)) =
      processLine st (String.mk (ws ++ rest)) := by
  have hdstar : d ≠ '*' := isDigit_ne d '*' hd (by decide)
  have hdw1 : (ws ++ '*' :: rest).dropWhile pySpace = '*' :: rest := by
    rw [dropWhile_append_spaces ws _ hws, List.dropWhile_cons]
    simp [pySpace]
  have hdw2 : (ws ++ rest).dropWhile pySpace = d :: tl := by
    rw [dropWhile_append_spaces ws rest hws, hrest]
  have hdmem : d ∈ rest := by
    have hmem : d ∈ rest.dropWhile pySpace := by
      rw [hrest]
      exact List.mem_cons_self d tl
    exact (List.dropWhile_sublist pySpace).mem hmem
  -- component equalities between the starred and the unmarked line
  have e1 : findCategory (String.mk (ws ++ '*' :: rest)) =
      findCategory (String.mk (ws ++ rest)) := by
    have hW : containsSubS "Wakeup Latencies percentiles" (String.mk (ws ++ '*' :: rest)) =
        containsSubS "Wakeup Latencies percentiles" (String.mk (ws ++ rest)) := by
      show containsSub ("Wakeup Latencies percentiles").data (ws ++ '*' :: rest) =
        containsSub ("Wakeup Latencies percentiles").data (ws ++ rest)
      rw [containsSub_star_skip _ 'W' ("akeup Latencies percentiles").data ws rest rfl
            hws (by decide) (by decide),
          containsSub_skip _ 'W' ("akeup Latencies percentiles").data ws rest rfl
            hws (by decide)]
    have hR : containsSubS "Request Latencies percentiles" (String.mk (ws ++ '*' :: rest)) =
        containsSubS "Request Latencies percentiles" (String.mk (ws ++ rest)) := by
      show containsSub ("Request Latencies percentiles").data (ws ++ '*' :: rest) =
        containsSub ("Request Latencies percentiles").data (ws ++ rest)
      rw [containsSub_star_skip _ 'R' ("equest Latencies percentiles").data ws rest rfl
            hws (by decide) (by decide),
          containsSub_skip _ 'R' ("equest Latencies percentiles").data ws rest rfl
            hws (by decide)]
    have hP : containsSubS "RPS percentiles (requests)" (String.mk (ws ++ '*' :: rest)) =
        containsSubS "RPS percentiles (requests)" (String.mk (ws ++ rest)) := by
      show containsSub ("RPS percentiles (requests)").data (ws ++ '*' :: rest) =
        containsSub ("RPS percentiles (requests)").data (ws ++ rest)
      rw [containsSub_star_skip _ 'R' ("PS percentiles (requests)").data ws rest rfl
            hws (by decide) (by decide),
          containsSub_skip _ 'R' ("PS percentiles (requests)").data ws rest rfl
            hws (by decide)]
    unfold findCategory
    rw [hW, hR, hP]
  have e2 : hasNonSpace (String.mk (ws ++ '*' :: rest)) =
      hasNonSpace (String.mk (ws ++ rest)) := by
    have h1 : hasNonSpace (String.mk (ws ++ '*' :: rest)) = true :=
      List.any_eq_true.mpr ⟨'*', by simp, by decide⟩
    have h2 : hasNonSpace (String.mk (ws ++ rest)) = true :=
      List.any_eq_true.mpr ⟨d, by simp [hdmem], by simp [isDigit_pySpace_false d hd]⟩
    rw [h1, h2]
  have e3 : percParse (String.mk (ws ++ '*' :: rest)).data =
      percParse (String.mk (ws ++ rest)).data := by
    show percParse (ws ++ '*' :: rest) = percParse (ws ++ rest)
    unfold percParse
    rw [hdw1, hdw2]
    show (if '*' = '*' then percTail (rest.dropWhile pySpace)
        else percTail ('*' :: rest)) =
      (if d = '*' then percTail (tl.dropWhile pySpace) else percTail (d :: tl))
    rw [if_pos rfl, if_neg hdstar, hrest]
  have e4 : containsSubS "min=" (String.mk (ws ++ '*' :: rest)) =
      containsSubS "min=" (String.mk (ws ++ rest)) := by
    show containsSub ("min=").data (ws ++ '*' :: rest) =
      containsSub ("min=").data (ws ++ rest)
    rw [containsSub_star_skip _ 'm' ("in=").data ws rest rfl hws (by decide) (by decide),
        containsSub_skip _ 'm' ("in=").data ws rest rfl hws (by decide)]
  have e5 : containsSubS "average rps:" (String.mk (ws ++ '*' :: rest)) =
      containsSubS "average rps:" (String.mk (ws ++ rest)) := by
    show containsSub ("average rps:").data (ws ++ '*' :: rest) =
      containsSub ("average rps:").data (ws ++ rest)
    rw [containsSub_star_skip _ 'a' ("verage rps:").data ws rest rfl hws (by decide)
          (by decide),
        containsSub_skip _ 'a' ("verage rps:").data ws rest rfl hws (by decide)]
  have e6 : minMaxParse (String.mk (ws ++ '*' :: rest)).data =
      minMaxParse (String.mk (ws ++ rest)).data := by
    show minMaxParse (ws ++ '*' :: rest) = minMaxParse (ws ++ rest)
    rw [minMaxParse_head_ne _ '*' rest hdw1 (by decide),
        minMaxParse_head_ne _ d tl hdw2 (isDigit_ne d 'm' hd (by decide))]
  have e7 : avgParse (String.mk (ws ++ '*' :: rest)).data =
      avgParse (String.mk (ws ++ rest)).data := by
    show avgParse (ws ++ '*' :: rest) = avgParse (ws ++ rest)
    have hav1 : avgParse (ws ++ '*' :: rest) = none := by
      cases ws with
      | nil => exact avgParse_head_ne '*' rest (by decide)
      | cons c ws' =>
        have hc : pySpace c = true := hws c (List.mem_cons_self _ _)
        refine avgParse_head_ne c _ ?_
        intro h
        rw [h] at hc
        exact absurd hc (by decide)
    have hav2 : avgParse (ws ++ rest) = none := by
      cases ws with
      | nil =>
        cases hre : rest with
        | nil => rw [hre] at hrest; simp [List.dropWhile] at hrest
        | cons c r =>
          by_cases hc : pySpace c = true
          · refine avgParse_head_ne c r ?_
            intro h
            rw [h] at hc
            exact absurd hc (by decide)
          · have : rest.dropWhile pySpace = c :: r := by
              rw [hre, List.dropWhile_cons, if_neg hc]
            rw [this] at hrest
            have hcd : c = d := (List.cons.injEq _ _ _ _ ▸ hrest).1
            refine avgParse_head_ne c r ?_
            rw [hcd]
            exact isDigit_ne d 'a' hd (by decide)
      | cons c ws' =>
        have hc : pySpace c = true := hws c (List.mem_cons_self _ _)
        refine avgParse_head_ne c _ ?_
        intro h
        rw [h] at hc
        exact absurd hc (by decide)
    rw [hav1, hav2]
  unfold processLine applyHeader applyBody
  rw [e1, e2, e3, e4, e5, e6, e7]

/-- Witness for C7 on the spec's example pair of lines. -/
theorem star_marker_ignored_witness :
    processLine ([("wakeup_latencies_percentiles", emptyBlock)],
        some "wakeup_latencies_percentiles")
      (String.mk (("  ").data ++ '*' :: (" 99.00th: 5000 (3 samples)").data)) =
    processLine ([("wakeup_latencies_percentiles", emptyBlock)],
        some "wakeup_latencies_percentiles")
      (String.mk (("  ").data ++ (" 99.00th: 5000 (3 samples)").data)) :=
  star_marker_ignored _ _ _ '9' (("9.00th: 5000 (3 samples)").data)
    (by decide) (by decide) (by decide)

end Schbench


